import Mathlib

/-!
# optitrack_node: frame-to-timestamp correlation loop

A shallow embedding of the `while (ros::ok())` loop of `src/optitrack_node.cpp`
(lines 86-202) together with the properties of the pulse emitter, the timestamp
buffer, the start-up aligner, the correlator and the per-body sequence counters.

Conventions of the embedding.

* `int` variables are integers; every `++` and the sum `localCntFrame+firstFrameId`
  are reduced with `wrap32` (two's complement, 32 bits).  On every run in which no
  signed overflow happens `wrap32` is the identity on the values involved.
  The two subtractions `curPose.id - 1` and `poses[0].frameNum - mapBufferSize` are
  left unreduced: the second is only evaluated for `frameNum > 0`, the first can
  only leave the `int` range for `id = INT_MIN`, where the unreduced value is
  negative and the body index is rejected as out of range anyway.
* `uint` sequence counters are naturals reduced modulo `2^32`.
* `std::map<int,ros::Time>` is an association list kept in increasing key order;
  `begin()` is the head of the list.
* `ros::Time` is a natural number (only equality of time stamps is used).
* Everything the loop reads from its collaborators in one iteration
  (`ser.isOpen()`, `ros::Time::now()`, whether `ser.write` returns, the vector
  returned by `mocap.getLatestPoses()`) is the input `Tick` of that iteration.
* `ser.write` signals failure by throwing (as `ser.open` does, whose exception
  the start-up code catches); the loop has no handler, so a failing write ends
  the run with a `Fault`.  The value a returning `ser.write` yields is discarded.
* `frameTimeStamp.at(k)` on a missing key throws `std::out_of_range`, which
  nothing catches; `seqs[r]`, `rbPubs[r]`, `rbDebugPubs[r]` with `r` outside
  `0 .. nbodies-1` are out-of-bounds accesses.  Both end the run with a `Fault`;
  the messages published before the fault stay in the trace.
-/

namespace Optitrack

deriving instance DecidableEq for Except

/-- Local time stamp (`ros::Time`). -/
abbrev Time := Nat

/-- Value of `mapBufferSize` (line 88). -/
def mapBufferSize : Int := 300

/-- Value of `firstGrabbedFrames` (line 89). -/
def firstGrabbedFrames : Int := 100

/-- Two's complement reduction of an integer to the range of a 32 bit `int`. -/
def wrap32 (x : Int) : Int := (x + 2147483648) % 4294967296 - 2147483648

/-- Increment of a `uint` (32 bit, wraps to 0). -/
def incU32 (x : Nat) : Nat := (x + 1) % 4294967296

/-- One element of `vectorPose` as far as the loop reads it: the rigid body id
(1-based), the frame number, and the geometry and marker data that are copied
into the messages unchanged (`t`, `r`, `timestamp`, `meanError`, `markers`). -/
structure Pose where
  id : Int
  frameNum : Int
  payload : Nat
deriving DecidableEq, Repr

/-- The pair of messages published for one pose (lines 134-165): a `PoseStamped`
on `rbPubs[r]` and a `RigidBody` on `rbDebugPubs[r]`.  Both headers get the same
`stamp` (`frameTimeStamp.at(curPose.frameNum)`) and the same `seq` (`seqs[r]`
read before the increment), so one record stands for the pair. -/
structure Record where
  body : Nat
  stamp : Time
  seq : Nat
  pose : Pose
deriving DecidableEq, Repr

/-- Ways in which an iteration ends the process abnormally: `frameTimeStamp.at`
throws on a missing key, `seqs[r]` is indexed out of bounds, or `ser.write`
throws.  None of them is caught inside the loop. -/
inductive Fault where
  | timestampMissing
  | bodyIndex
  | serialWrite
deriving DecidableEq, Repr

/-- The `frameTimeStamp` map, entries in increasing key order. -/
abbrev FrameMap := List (Int × Time)

/-- Model of `frameTimeStamp.at(k)`, `none` when it throws. -/
def mapAt : FrameMap → Int → Option Time
  | [], _ => none
  | (k0, t0) :: rest, k => if k0 = k then some t0 else mapAt rest k

/-- Model of `frameTimeStamp.count(k)`. -/
def mapCount (m : FrameMap) (k : Int) : Nat :=
  match mapAt m k with
  | some _ => 1
  | none => 0

/-- Model of `frameTimeStamp[k] = t`: overwrite the entry of `k` or insert a new
one at its place in the key order. -/
def mapSet : FrameMap → Int → Time → FrameMap
  | [], k, t => [(k, t)]
  | (k0, t0) :: rest, k, t =>
    if k < k0 then (k, t) :: (k0, t0) :: rest
    else if k = k0 then (k, t) :: rest
    else (k0, t0) :: mapSet rest k t

/-- The loop of lines 170-172: erase `begin()` while its key is below `bound`. -/
def evict : FrameMap → Int → FrameMap
  | [], _ => []
  | (k0, t0) :: rest, bound =>
    if k0 < bound then evict rest bound else (k0, t0) :: rest

/-- The variables declared before the loop (lines 57, 86-98). -/
structure State where
  count : Int
  frameTimeStamp : FrameMap
  localCntFrame : Int
  firstFrameId : Int
  localFrameId : Int
  firstFramesCounter : Int
  firstMinCnt : Int
  firstFrameFlag : Bool
  seqs : List Nat
deriving DecidableEq, Repr

/-- The state on entry to the loop, for `nbodies` tracked bodies. -/
def init (nbodies : Int) : State where
  count := 0
  frameTimeStamp := []
  localCntFrame := 1
  firstFrameId := 0
  localFrameId := 0
  firstFramesCounter := 0
  firstMinCnt := 0
  firstFrameFlag := true
  seqs := List.replicate nbodies.toNat 0

/-- What one iteration reads from the serial port, the clock and the mocap
client.  `writeOk` tells whether `ser.write(zero)` returns; it is `false` when
the write fails, which the serial library reports by throwing. -/
structure Tick where
  serOpen : Bool
  now : Time
  writeOk : Bool
  poses : List Pose
deriving DecidableEq, Repr

/-- Whether the iteration emits a pulse: `ser.isOpen() && (count %2==0)`. -/
def pulseDue (s : State) (i : Tick) : Bool :=
  i.serOpen && (s.count.tmod 2 == 0)

/-- Lines 107-108: compute the key `localCntFrame+firstFrameId` and store the
current time under it. -/
def storeStamp (s : State) (i : Tick) : State :=
  let key := wrap32 (s.localCntFrame + s.firstFrameId)
  { s with
    localFrameId := key
    frameTimeStamp := mapSet s.frameTimeStamp key i.now }

/-- Line 110: `localCntFrame++`. -/
def advance (s : State) : State :=
  { s with localCntFrame := wrap32 (s.localCntFrame + 1) }

/-- Lines 106-111: when a pulse is due, store the time, write the trigger byte,
advance the local counter.  A write that throws ends the process after the time
was stored and before the counter is advanced. -/
def pulseStep (s : State) (i : Tick) : Except Fault State :=
  if pulseDue s i then
    let s1 := storeStamp s i
    if i.writeOk then .ok (advance s1) else .error .serialWrite
  else .ok s

/-- Lines 120-167: the `for` loop over the batch.  Returns the records published
and either the updated `seqs` or the fault that stopped the loop. -/
def publishLoop (m : FrameMap) : List Pose → List Nat → List Record × Except Fault (List Nat)
  | [], seqs => ([], .ok seqs)
  | p :: ps, seqs =>
    let r := p.id - 1
    match mapAt m p.frameNum with
    | none => ([], .error .timestampMissing)
    | some t =>
      if 0 ≤ r ∧ r.toNat < seqs.length then
        let out := publishLoop m ps (seqs.set r.toNat (incU32 (seqs.getD r.toNat 0)))
        (⟨r.toNat, t, seqs.getD r.toNat 0, p⟩ :: out.1, out.2)
      else ([], .error .bodyIndex)

/-- Result of a step that publishes: the records in publication order and the
next state, or the fault. -/
structure Outcome where
  published : List Record
  next : Except Fault State
deriving DecidableEq

/-- Lines 116-175: the correlation block. -/
def correlate (s : State) (poses : List Pose) : Outcome :=
  if s.firstFrameFlag = false then
    match poses with
    | [] => ⟨[], .ok s⟩
    | p0 :: _ =>
      if 0 < p0.frameNum ∧ 0 < mapCount s.frameTimeStamp p0.frameNum then
        match publishLoop s.frameTimeStamp poses s.seqs with
        | (recs, .error f) => ⟨recs, .error f⟩
        | (recs, .ok seqs) =>
          ⟨recs, .ok { s with
            seqs := seqs
            frameTimeStamp := evict s.frameTimeStamp (p0.frameNum - mapBufferSize) }⟩
      else ⟨[], .ok s⟩
  else ⟨[], .ok s⟩

/-- Lines 180-195: the start-up alignment block. -/
def align (s : State) (poses : List Pose) : State :=
  match poses with
  | [] => s
  | p0 :: _ =>
    if s.firstFrameFlag = true ∧ p0.frameNum ≠ -1 then
      let flag := if firstGrabbedFrames ≤ s.firstFramesCounter then false else s.firstFrameFlag
      let counter := wrap32 (s.firstFramesCounter + 1)
      let minCnt := if s.firstMinCnt = 0 then wrap32 (s.firstMinCnt + 1) else s.firstMinCnt
      let fid := if s.firstMinCnt = 0 then p0.frameNum else s.firstFrameId
      let fid := if p0.frameNum < fid then p0.frameNum else fid
      { s with
        firstFrameFlag := flag
        firstFramesCounter := counter
        firstMinCnt := minCnt
        firstFrameId := fid }
    else s

/-- Line 200: `++count`. -/
def bumpCount (s : State) : State :=
  { s with count := wrap32 (s.count + 1) }

/-- Lines 113-200: the rest of an iteration once the pulse step is through. -/
def afterPulse (s0 : State) (i : Tick) : Outcome :=
  let out := correlate s0 i.poses
  match out.next with
  | .error f => ⟨out.published, .error f⟩
  | .ok s1 => ⟨out.published, .ok (bumpCount (align s1 i.poses))⟩

/-- One iteration of the loop body (lines 105-200). -/
def tick (s : State) (i : Tick) : Outcome :=
  match pulseStep s i with
  | .error f => ⟨[], .error f⟩
  | .ok s0 => afterPulse s0 i

/-- A pulse as the emitter produces it: the local index (`localCntFrame` when it
was sent), the value of `firstFrameId` at that moment, the key under which the
time went into the buffer, the time, and whether alignment was already frozen. -/
structure Pulse where
  localIndex : Int
  offset : Int
  key : Int
  sentAt : Time
  aligned : Bool
deriving DecidableEq, Repr

/-- The pulse emitted by an iteration started in `s`, if any: one is due and the
write of the trigger byte returns. -/
def pulseOf (s : State) (i : Tick) : Option Pulse :=
  if pulseDue s i && i.writeOk then
    some ⟨s.localCntFrame, s.firstFrameId, wrap32 (s.localCntFrame + s.firstFrameId),
      i.now, !s.firstFrameFlag⟩
  else none

/-- What a run has produced so far: the pulses in the order sent, the records
in the order published, and the current state (or the fault that ended it). -/
structure Trace where
  pulses : List Pulse
  published : List Record
  next : Except Fault State
deriving DecidableEq

/-- Extend a trace by one iteration; a faulted run takes no further iteration. -/
def Trace.step (tr : Trace) (i : Tick) : Trace :=
  match tr.next with
  | .error _ => tr
  | .ok s =>
    { pulses := tr.pulses ++ (pulseOf s i).toList
      published := tr.published ++ (tick s i).published
      next := (tick s i).next }

/-- Run the loop from `s` over the inputs of successive iterations. -/
def run (s : State) (ins : List Tick) : Trace :=
  ins.foldl Trace.step ⟨[], [], .ok s⟩

/-- The frame number an iteration contributes to the alignment: that of the
first pose of a non-empty batch, unless it is the sentinel `-1`. -/
def validFrame (i : Tick) : Option Int :=
  match i.poses with
  | [] => none
  | p0 :: _ => if p0.frameNum = -1 then none else some p0.frameNum

/-- Frame numbers of the valid batches among the inputs, in order. -/
def validFrames (ins : List Tick) : List Int :=
  ins.filterMap validFrame

/-- The most recent pulse of a log (oldest first) stored under key `k`. -/
def lastPulseAt (log : List Pulse) (k : Int) : Option Pulse :=
  log.reverse.find? fun p => p.key == k

/-- The write of the iteration does not throw: either no pulse is due or
`ser.write` returns. -/
def WriteReturns (s : State) (i : Tick) : Prop :=
  pulseDue s i = true → i.writeOk = true

instance (s : State) (i : Tick) : Decidable (WriteReturns s i) := by
  unfold WriteReturns; infer_instance

/-- The state after the pulse step of an iteration whose write returns. -/
def pulseState (s : State) (i : Tick) : State :=
  if pulseDue s i then advance (storeStamp s i) else s

/-- Keys strictly increase along the list: the representation invariant of
`std::map`, whose iteration order is the key order. -/
def Ordered (m : FrameMap) : Prop := List.Pairwise (fun a b => a.1 < b.1) m

instance (m : FrameMap) : Decidable (Ordered m) := by unfold Ordered; infer_instance

/-- The aligner tracks the minimum: before the first valid batch `firstMinCnt`
is 0; afterwards `firstFrameId` is the least frame number of the valid batches. -/
def TracksMin (s : State) (ins : List Tick) : Prop :=
  (s.firstMinCnt = 0 ∧ validFrames ins = []) ∨
  (s.firstMinCnt ≠ 0 ∧ s.firstFrameId ∈ validFrames ins ∧
    ∀ f ∈ validFrames ins, s.firstFrameId ≤ f)

/-- Every buffer entry is the time of the most recent pulse stored under its key. -/
def BufferLogged (m : FrameMap) (log : List Pulse) : Prop :=
  ∀ k t, mapAt m k = some t → ∃ p, lastPulseAt log k = some p ∧ p.sentAt = t

/-- Invariant of the pulse log of a run: every pulse was stored under
`localIndex + offset` (as an `int`); while the run has not faulted the buffer is
in key order and agrees with the log, and every pulse sent after alignment froze
carries the frozen offset. -/
def LogInv (tr : Trace) : Prop :=
  (∀ p ∈ tr.pulses, p.key = wrap32 (p.localIndex + p.offset)) ∧
  ∀ s, tr.next = .ok s →
    Ordered s.frameTimeStamp ∧
    BufferLogged s.frameTimeStamp tr.pulses ∧
    (∀ p ∈ tr.pulses, p.aligned = true → s.firstFrameFlag = false ∧ p.offset = s.firstFrameId)

/-- The `seq` fields of the records published on publisher `b`, in order. -/
def seqsOf (b : Nat) (recs : List Record) : List Nat :=
  (recs.filter fun r => r.body == b).map fun r => r.seq

/-- On every publisher the `seq` fields count up from 0 as a `uint`:
the `j`-th record (from 0) carries `j mod 2^32`. -/
def Sequenced (recs : List Record) : Prop :=
  ∀ b, seqsOf b recs = (List.range (seqsOf b recs).length).map fun j => j % 4294967296

/-- The counters `seqs` hold, for every body, the number of records published
for it so far, as a `uint`. -/
def Tracks (seqs : List Nat) (recs : List Record) : Prop :=
  ∀ b, b < seqs.length → seqs.getD b 0 = (seqsOf b recs).length % 4294967296

/-- Invariant of the records of a run: they are `Sequenced`, and while the run
has not faulted the counters `seqs` track them. -/
def SeqInv (tr : Trace) : Prop :=
  Sequenced tr.published ∧ ∀ s, tr.next = .ok s → Tracks s.seqs tr.published

/-! ### Sample inputs -/

/-- An iteration at time `t` with the channel open, a successful write, and one
pose of body 1 from frame `f`. -/
def frameTick (t : Time) (f : Int) : Tick := ⟨true, t, true, [⟨1, f, 0⟩]⟩

/-- The first `n` iterations, at times `0 .. n-1`, every batch from frame `f`. -/
def warmup (f : Int) (n : Nat) : List Tick :=
  (List.range n).map fun j => frameTick j f

/-- The state after 101 iterations with frame 1004: alignment has just frozen. -/
def alignedState : State where
  count := 101
  frameTimeStamp := (1, 0) :: (List.range 50).map fun (j : Nat) => (1006 + Int.ofNat j, 2 * j + 2)
  localCntFrame := 52
  firstFrameId := 1004
  localFrameId := 1055
  firstFramesCounter := 101
  firstMinCnt := 1
  firstFrameFlag := false
  seqs := [0]

/-- The state a run from the initial state ends in (the initial state itself if
the run faulted). -/
def stateAfter (nbodies : Int) (ins : List Tick) : State :=
  match (run (init nbodies) ins).next with
  | .ok s => s
  | .error _ => init nbodies

/-- Iterations at times `0, 1, 2, ...` whose batches carry the given frame
numbers, one pose of body 1 each. -/
def framesToTicks (fs : List Int) : List Tick :=
  List.zipWith frameTick (List.range fs.length) fs

/-- A start-up sequence with out-of-order frames and sentinel batches: 100 valid
frame numbers (least: 1002) and two `-1` batches. -/
def startFrames : List Int :=
  [1005, -1, 1007, 1002, -1, 1004] ++ List.replicate 96 1010

/-- An iteration with the channel open and nothing to read from the mocap client. -/
def idleTick : Tick := ⟨true, 0, true, []⟩

/-- The state after `n` idle iterations from `init 1`: one buffer entry per
pulse, under the keys `1 .. ⌈n/2⌉`. -/
def idleState (n : Nat) : State where
  count := n
  frameTimeStamp := (List.range ((n + 1) / 2)).map fun (j : Nat) => (Int.ofNat j + 1, 0)
  localCntFrame := Int.ofNat ((n + 1) / 2) + 1
  firstFrameId := 0
  localFrameId := Int.ofNat ((n + 1) / 2)
  firstFramesCounter := 0
  firstMinCnt := 0
  firstFrameFlag := true
  seqs := [0]

/-- A start-up in which the minimum drops on the freezing iteration: 100 batches
from frame 1104, then frame 1004 (alignment freezes at 1004), then a batch from
frame 1110. -/
def lateDrop : List Tick :=
  warmup 1104 100 ++ [frameTick 100 1004, frameTick 101 1110]

/-- Iterations `101, 102, ...` (channel open, times continuing those of `warmup`),
each with one pose of body 1 from frame 1. -/
def steady (n : Nat) : List Tick :=
  (List.range n).map fun j => frameTick (101 + j) 1

/-- An aligned state with one tracked body whose buffer, in key order, holds an
entry for frame 1. -/
def Steady (s : State) : Prop :=
  s.firstFrameFlag = false ∧ mapAt s.frameTimeStamp 1 ≠ none ∧ s.seqs.length = 1 ∧
    Ordered s.frameTimeStamp

/-! ## The timestamp buffer -/

theorem mapAt_mem {m : FrameMap} {k : Int} {t : Time} (h : mapAt m k = some t) : (k, t) ∈ m := by
  induction m with
  | nil => simp [mapAt] at h
  | cons e rest ih =>
    obtain ⟨k0, t0⟩ := e
    by_cases hk : k0 = k
    · simp [mapAt, hk] at h
      simp [hk, h]
    · simp [mapAt, hk] at h
      exact List.mem_cons_of_mem _ (ih h)

theorem mapAt_mapSet_self (m : FrameMap) (k : Int) (t : Time) : mapAt (mapSet m k t) k = some t := by
  induction m with
  | nil => simp [mapSet, mapAt]
  | cons e rest ih =>
    obtain ⟨k0, t0⟩ := e
    by_cases h1 : k < k0
    · simp [mapSet, h1, mapAt]
    · by_cases h2 : k = k0
      · simp [mapSet, h2, mapAt]
      · have h3 : ¬ k0 = k := fun h => h2 h.symm
        simp [mapSet, h1, h2, mapAt, h3, ih]

theorem mapAt_mapSet_ne (m : FrameMap) (k k' : Int) (t : Time) (hne : k' ≠ k) :
    mapAt (mapSet m k t) k' = mapAt m k' := by
  induction m with
  | nil =>
    have h3 : ¬ k = k' := fun h => hne h.symm
    simp [mapSet, mapAt, h3]
  | cons e rest ih =>
    obtain ⟨k0, t0⟩ := e
    have h3 : ¬ k = k' := fun h => hne h.symm
    by_cases h1 : k < k0
    · simp [mapSet, h1, mapAt, h3]
    · by_cases h2 : k = k0
      · subst h2
        simp [mapSet, mapAt, h3]
      · simp [mapSet, h1, h2, mapAt, ih]

theorem mapSet_keys (m : FrameMap) (k : Int) (t : Time) (e : Int × Time) (he : e ∈ mapSet m k t) :
    e.1 = k ∨ e ∈ m := by
  induction m with
  | nil => simp [mapSet] at he; simp [he]
  | cons e0 rest ih =>
    obtain ⟨k0, t0⟩ := e0
    by_cases h1 : k < k0
    · simp [mapSet, h1] at he
      rcases he with he | he | he
      · simp [he]
      · simp [he]
      · right; exact List.mem_cons_of_mem _ he
    · by_cases h2 : k = k0
      · simp [mapSet, h2] at he
        rcases he with he | he
        · left; simp [he, h2]
        · right; exact List.mem_cons_of_mem _ he
      · simp [mapSet, h1, h2] at he
        rcases he with he | he
        · right; simp [he]
        · rcases ih he with h | h
          · left; exact h
          · right; exact List.mem_cons_of_mem _ h

theorem mapSet_ordered (m : FrameMap) (k : Int) (t : Time) (h : Ordered m) : Ordered (mapSet m k t) := by
  induction m with
  | nil => simp [mapSet, Ordered]
  | cons e0 rest ih =>
    obtain ⟨k0, t0⟩ := e0
    unfold Ordered at h ih ⊢
    rw [List.pairwise_cons] at h
    by_cases h1 : k < k0
    · simp only [mapSet, h1, if_true]
      rw [List.pairwise_cons]
      refine ⟨?_, List.pairwise_cons.2 h⟩
      intro e he
      rcases List.mem_cons.1 he with he | he
      · simp [he, h1]
      · have := h.1 e he
        simp only at this ⊢
        omega
    · by_cases h2 : k = k0
      · subst h2
        simp only [mapSet, h1, if_false, if_true]
        rw [List.pairwise_cons]
        exact ⟨h.1, h.2⟩
      · simp only [mapSet, h1, h2, if_false]
        rw [List.pairwise_cons]
        refine ⟨?_, ih h.2⟩
        intro e he
        rcases mapSet_keys rest k t e he with hk | hm
        · simp only [hk]; omega
        · exact h.1 e hm

theorem mapSet_length (m : FrameMap) (k : Int) (t : Time) : (mapSet m k t).length ≤ m.length + 1 := by
  induction m with
  | nil => simp [mapSet]
  | cons e0 rest ih =>
    obtain ⟨k0, t0⟩ := e0
    by_cases h1 : k < k0
    · simp [mapSet, h1]
    · by_cases h2 : k = k0
      · simp [mapSet, h2]
      · simp [mapSet, h1, h2]; omega

theorem evict_eq_filter (m : FrameMap) (b : Int) (h : Ordered m) :
    evict m b = m.filter (fun e => decide (b ≤ e.1)) := by
  induction m with
  | nil => simp [evict]
  | cons e0 rest ih =>
    obtain ⟨k0, t0⟩ := e0
    unfold Ordered at h ih
    rw [List.pairwise_cons] at h
    by_cases h1 : k0 < b
    · have h2 : ¬ b ≤ k0 := by omega
      simp [evict, h1, h2, List.filter_cons, ih h.2]
    · have h2 : b ≤ k0 := by omega
      simp only [evict, h1, if_false, List.filter_cons, h2, decide_True, if_true]
      congr 1
      symm
      rw [List.filter_eq_self]
      intro e he
      have := h.1 e he
      simp only at this
      simp only [decide_eq_true_eq]
      omega

theorem evict_ordered (m : FrameMap) (b : Int) (h : Ordered m) : Ordered (evict m b) := by
  rw [evict_eq_filter m b h]
  exact List.Pairwise.filter _ h

theorem evict_length (m : FrameMap) (b : Int) : (evict m b).length ≤ m.length := by
  induction m with
  | nil => simp [evict]
  | cons e0 rest ih =>
    obtain ⟨k0, t0⟩ := e0
    by_cases h1 : k0 < b
    · simp [evict, h1]; omega
    · simp [evict, h1]

theorem mapAt_filter (m : FrameMap) (b k : Int) :
    mapAt (m.filter (fun e => decide (b ≤ e.1))) k = if b ≤ k then mapAt m k else none := by
  induction m with
  | nil => simp [mapAt]
  | cons e0 rest ih =>
    obtain ⟨k0, t0⟩ := e0
    by_cases h1 : b ≤ k0
    · by_cases h2 : k0 = k
      · subst h2
        simp [List.filter_cons, h1, mapAt]
      · simp [List.filter_cons, h1, mapAt, h2, ih]
    · have h2 : ¬ k0 = k ∨ ¬ b ≤ k := by omega
      simp only [List.filter_cons, h1, decide_False, mapAt]
      rcases h2 with h2 | h2
      · simp [h2, ih]
      · simp [h2, ih]

theorem mapAt_evict (m : FrameMap) (b k : Int) (h : Ordered m) :
    mapAt (evict m b) k = if b ≤ k then mapAt m k else none := by
  rw [evict_eq_filter m b h, mapAt_filter]

/-! ## The steps of one iteration -/

theorem pulseStep_eq (s : State) (i : Tick) :
    pulseStep s i = if WriteReturns s i then .ok (pulseState s i) else .error .serialWrite := by
  unfold pulseStep pulseState WriteReturns
  by_cases hd : pulseDue s i = true
  · by_cases hw : i.writeOk = true
    · simp [hd, hw]
    · simp [hd, hw]
  · simp [hd]

theorem pulseState_frame (s : State) (i : Tick) :
    (pulseState s i).firstFrameFlag = s.firstFrameFlag ∧
    (pulseState s i).firstFrameId = s.firstFrameId ∧
    (pulseState s i).seqs = s.seqs ∧
    (pulseState s i).count = s.count ∧
    (pulseState s i).firstFramesCounter = s.firstFramesCounter ∧
    (pulseState s i).firstMinCnt = s.firstMinCnt := by
  unfold pulseState
  split <;> simp [advance, storeStamp]

theorem correlate_warmup (s : State) (poses : List Pose) (h : s.firstFrameFlag = true) :
    correlate s poses = ⟨[], .ok s⟩ := by
  simp [correlate, h]

theorem correlate_frame (s s' : State) (poses : List Pose)
    (h : (correlate s poses).next = .ok s') :
    s'.firstFrameFlag = s.firstFrameFlag ∧
    s'.firstFrameId = s.firstFrameId ∧
    s'.count = s.count ∧
    s'.localCntFrame = s.localCntFrame ∧
    s'.firstFramesCounter = s.firstFramesCounter ∧
    s'.firstMinCnt = s.firstMinCnt ∧
    (s'.frameTimeStamp = s.frameTimeStamp ∨
      ∃ b, s'.frameTimeStamp = evict s.frameTimeStamp b) := by
  unfold correlate at h
  split at h
  · split at h
    · simp at h; subst h; simp
    · split at h
      · split at h
        · simp at h
        · simp at h; subst h; simp
      · simp at h; subst h; simp
  · simp at h; subst h; simp

theorem align_aligned (s : State) (poses : List Pose) (h : s.firstFrameFlag = false) :
    align s poses = s := by
  unfold align
  split
  · rfl
  · simp [h]

theorem align_frame (s : State) (poses : List Pose) :
    (align s poses).seqs = s.seqs ∧
    (align s poses).frameTimeStamp = s.frameTimeStamp ∧
    (align s poses).count = s.count ∧
    (align s poses).localCntFrame = s.localCntFrame := by
  unfold align
  split
  · simp
  · split <;> simp

theorem afterPulse_ok_iff (s0 s' : State) (i : Tick) :
    (afterPulse s0 i).next = .ok s' ↔
      ∃ s1, (correlate s0 i.poses).next = .ok s1 ∧ s' = bumpCount (align s1 i.poses) := by
  unfold afterPulse
  cases h : (correlate s0 i.poses).next with
  | error f => simp [h]
  | ok s1 =>
    simp only [h, Except.ok.injEq]
    constructor
    · intro h'; exact ⟨s1, rfl, h'.symm⟩
    · rintro ⟨s2, h2, h3⟩; subst h2; exact h3.symm

theorem afterPulse_published (s0 : State) (i : Tick) :
    (afterPulse s0 i).published = (correlate s0 i.poses).published := by
  unfold afterPulse
  cases h : (correlate s0 i.poses).next <;> simp [h]

theorem tick_of_returns (s : State) (i : Tick) (h : WriteReturns s i) :
    tick s i = afterPulse (pulseState s i) i := by
  simp [tick, pulseStep_eq, h]

theorem tick_of_throw (s : State) (i : Tick) (h : ¬ WriteReturns s i) :
    tick s i = ⟨[], .error .serialWrite⟩ := by
  simp [tick, pulseStep_eq, h]

theorem tick_ok (s s' : State) (i : Tick) (h : (tick s i).next = .ok s') :
    WriteReturns s i ∧
    ∃ s1, (correlate (pulseState s i) i.poses).next = .ok s1 ∧
      s' = bumpCount (align s1 i.poses) := by
  by_cases hw : WriteReturns s i
  · rw [tick_of_returns s i hw] at h
    exact ⟨hw, (afterPulse_ok_iff _ _ _).1 h⟩
  · rw [tick_of_throw s i hw] at h
    simp at h

theorem tick_published_mem (s : State) (i : Tick) (r : Record)
    (h : r ∈ (tick s i).published) :
    WriteReturns s i ∧ r ∈ (correlate (pulseState s i) i.poses).published := by
  by_cases hw : WriteReturns s i
  · rw [tick_of_returns s i hw, afterPulse_published] at h
    exact ⟨hw, h⟩
  · rw [tick_of_throw s i hw] at h
    simp at h

theorem tick_warmup (s : State) (i : Tick) (h : s.firstFrameFlag = true)
    (hw : WriteReturns s i) :
    tick s i = ⟨[], .ok (bumpCount (align (pulseState s i) i.poses))⟩ := by
  have h1 : (pulseState s i).firstFrameFlag = true := by rw [(pulseState_frame s i).1, h]
  simp [tick_of_returns s i hw, afterPulse, correlate_warmup _ _ h1]

theorem tick_warmup_published (s : State) (i : Tick) (h : s.firstFrameFlag = true) :
    (tick s i).published = [] := by
  by_cases hw : WriteReturns s i
  · rw [tick_warmup s i h hw]
  · rw [tick_of_throw s i hw]

theorem tick_warmup_ok (s s' : State) (i : Tick) (h : s.firstFrameFlag = true)
    (ht : (tick s i).next = .ok s') :
    s' = bumpCount (align (pulseState s i) i.poses) := by
  have hw := (tick_ok s s' i ht).1
  rw [tick_warmup s i h hw] at ht
  simp only [Except.ok.injEq] at ht
  exact ht.symm

theorem tick_aligned_frame (s s' : State) (i : Tick) (h : s.firstFrameFlag = false)
    (hs : (tick s i).next = .ok s') :
    s'.firstFrameFlag = false ∧ s'.firstFrameId = s.firstFrameId := by
  obtain ⟨_, s1, h1, h2⟩ := tick_ok s s' i hs
  have hc := correlate_frame _ _ _ h1
  have hp := pulseState_frame s i
  have hf1 : s1.firstFrameFlag = false := by rw [hc.1, hp.1, h]
  subst h2
  rw [align_aligned _ _ hf1]
  simp [bumpCount, hf1, hc.2.1, hp.2.1]

/-! ## Runs -/

theorem run_snoc (s : State) (ins : List Tick) (i : Tick) :
    run s (ins ++ [i]) = (run s ins).step i := by
  simp [run, List.foldl_append]

theorem run_nil (s : State) : run s [] = ⟨[], [], .ok s⟩ := rfl

theorem step_of_ok (tr : Trace) (s : State) (i : Tick) (h : tr.next = .ok s) :
    tr.step i = ⟨tr.pulses ++ (pulseOf s i).toList, tr.published ++ (tick s i).published,
      (tick s i).next⟩ := by
  simp [Trace.step, h]

theorem step_of_error (tr : Trace) (f : Fault) (i : Tick) (h : tr.next = .error f) :
    tr.step i = tr := by
  simp [Trace.step, h]

theorem foldl_step_error (tr : Trace) (f : Fault) (h : tr.next = .error f) (l : List Tick) :
    l.foldl Trace.step tr = tr := by
  induction l with
  | nil => rfl
  | cons i l ih => simp [List.foldl_cons, step_of_error tr f i h, ih]

theorem run_cons (s : State) (i : Tick) (l : List Tick) :
    run s (i :: l) = l.foldl Trace.step ⟨(pulseOf s i).toList, (tick s i).published, (tick s i).next⟩ := by
  simp [run, List.foldl_cons, Trace.step]

/-- A run that reaches a state after `ins ++ [i]` was in a state before `i`. -/
theorem run_snoc_ok (s0 s' : State) (ins : List Tick) (i : Tick)
    (h : (run s0 (ins ++ [i])).next = .ok s') :
    ∃ s, (run s0 ins).next = .ok s ∧ (tick s i).next = .ok s' := by
  rw [run_snoc] at h
  cases hn : (run s0 ins).next with
  | error f => rw [step_of_error _ f i hn, hn] at h; simp at h
  | ok s => rw [step_of_ok _ s i hn] at h; exact ⟨s, rfl, h⟩

theorem run_append (s0 : State) (ins later : List Tick) :
    run s0 (ins ++ later) = later.foldl Trace.step (run s0 ins) := by
  simp [run, List.foldl_append]

/-- Once the flag is cleared it stays cleared and `firstFrameId` keeps its value,
over any number of further iterations. -/
theorem foldl_aligned (later : List Tick) (tr : Trace) (s s' : State)
    (h : tr.next = .ok s) (hflag : s.firstFrameFlag = false)
    (h' : (later.foldl Trace.step tr).next = .ok s') :
    s'.firstFrameFlag = false ∧ s'.firstFrameId = s.firstFrameId := by
  induction later generalizing tr s with
  | nil =>
    simp only [List.foldl_nil] at h'
    rw [h] at h'
    simp at h'; subst h'
    exact ⟨hflag, rfl⟩
  | cons i l ih =>
    simp only [List.foldl_cons] at h'
    cases hn : (tick s i).next with
    | error f =>
      have hs : (tr.step i).next = .error f := by rw [step_of_ok _ s i h]; exact hn
      rw [foldl_step_error _ f hs, hs] at h'
      simp at h'
    | ok s1 =>
      have hs : (tr.step i).next = .ok s1 := by rw [step_of_ok _ s i h]; exact hn
      have h1 := tick_aligned_frame s s1 i hflag hn
      have h2 := ih (tr.step i) s1 hs h1.1 h'
      exact ⟨h2.1, h2.2.trans h1.2⟩

/-! ## Sample runs -/

set_option maxRecDepth 100000 in
theorem run_warmup : (run (init 1) (warmup 1004 101)).next = .ok alignedState := by decide!

set_option maxRecDepth 100000 in
theorem run_warmup_published : (run (init 1) (warmup 1004 101)).published = [] := by decide!

/-! ## Claims about the aligner gate and the correlation step -/

/-- C4. ALIGNED is terminal: in a run from the initial state, once a state with
`firstFrameFlag` cleared is reached, every state reached by any number of later
iterations, whatever their batches, has the flag cleared and the same
`firstFrameId`. -/
theorem aligned_is_terminal (nbodies : Int) (ins later : List Tick) (s s' : State)
    (hrun : (run (init nbodies) ins).next = .ok s)
    (hflag : s.firstFrameFlag = false)
    (hlater : (run (init nbodies) (ins ++ later)).next = .ok s') :
    s'.firstFrameFlag = false ∧ s'.firstFrameId = s.firstFrameId := by
  rw [run_append] at hlater
  exact foldl_aligned later _ s s' hrun hflag hlater

set_option maxRecDepth 100000 in
/-- C4 at a concrete run: after alignment froze at 1004, batches from frames 900
and 7 leave the offset at 1004. -/
theorem aligned_is_terminal_witness :
    (run (init 1) (warmup 1004 101)).next = .ok alignedState ∧
    alignedState.firstFrameFlag = false ∧
    (run (init 1) (warmup 1004 101 ++ [frameTick 101 900, frameTick 102 7])).next =
      .ok { alignedState with
        count := 103, localCntFrame := 53, localFrameId := 1056,
        frameTimeStamp := alignedState.frameTimeStamp ++ [(1056, 102)] } ∧
    (alignedState.firstFrameFlag = false ∧ (1004 : Int) = alignedState.firstFrameId) :=
  ⟨by decide!, by decide!, by decide!,
    aligned_is_terminal 1 (warmup 1004 101) [frameTick 101 900, frameTick 102 7]
      alignedState
      { alignedState with
        count := 103, localCntFrame := 53, localFrameId := 1056,
        frameTimeStamp := alignedState.frameTimeStamp ++ [(1056, 102)] }
      (by decide!) (by decide!) (by decide!)⟩

/-- C5. Pre-alignment silence: in a run from the initial state, an iteration that
starts with `firstFrameFlag` set publishes nothing and leaves every sequence
counter as it was; it does not fault unless its serial write throws; the run has
published nothing up to and including that iteration. -/
theorem pre_alignment_silence (nbodies : Int) (ins : List Tick) (i : Tick) (s : State)
    (hrun : (run (init nbodies) ins).next = .ok s)
    (hwarm : s.firstFrameFlag = true) :
    (tick s i).published = [] ∧
    (∀ s', (tick s i).next = .ok s' → s'.seqs = s.seqs) ∧
    (WriteReturns s i → ∃ s', (tick s i).next = .ok s' ∧ s'.seqs = s.seqs) ∧
    (run (init nbodies) (ins ++ [i])).published = [] := by
  have key : ∀ (l : List Tick) (s : State), (run (init nbodies) l).next = .ok s →
      s.firstFrameFlag = true → (run (init nbodies) l).published = [] := by
    intro l
    induction l using List.reverseRecOn with
    | nil => intro s _ _; rfl
    | append_singleton l a ih =>
      intro s2 h2 hw
      obtain ⟨s1, h1, ht⟩ := run_snoc_ok _ _ _ _ h2
      have hw1 : s1.firstFrameFlag = true := by
        cases hf : s1.firstFrameFlag with
        | true => rfl
        | false =>
          have := (tick_aligned_frame s1 s2 a hf ht).1
          rw [this] at hw; exact absurd hw (by simp)
      rw [run_snoc, step_of_ok _ s1 a h1]
      simp [ih s1 h1 hw1, tick_warmup_published s1 a hw1]
  have hseqs : (bumpCount (align (pulseState s i) i.poses)).seqs = s.seqs := by
    simp [bumpCount, (align_frame _ _).1, (pulseState_frame s i).2.2.1]
  refine ⟨tick_warmup_published s i hwarm, ?_, ?_, ?_⟩
  · intro s' hs'
    rw [tick_warmup_ok s s' i hwarm hs']
    exact hseqs
  · intro hw
    exact ⟨_, by rw [tick_warmup s i hwarm hw], hseqs⟩
  · rw [run_snoc, step_of_ok _ s i hrun]
    simp [key ins s hrun hwarm, tick_warmup_published s i hwarm]

set_option maxRecDepth 100000 in
/-- C5 at a concrete run: the 101st iteration still starts in warm-up (100 valid
frames seen, buffer filled); it publishes nothing, does not fault and leaves the
sequence counter at 0. -/
theorem pre_alignment_silence_witness :
    (run (init 1) (warmup 1004 100)).next =
      .ok { alignedState with
        count := 100, localCntFrame := 51, localFrameId := 1054,
        firstFramesCounter := 100, firstFrameFlag := true,
        frameTimeStamp := alignedState.frameTimeStamp.dropLast } ∧
    (tick { alignedState with
        count := 100, localCntFrame := 51, localFrameId := 1054,
        firstFramesCounter := 100, firstFrameFlag := true,
        frameTimeStamp := alignedState.frameTimeStamp.dropLast }
      (frameTick 100 1006)).published = [] ∧
    (tick { alignedState with
        count := 100, localCntFrame := 51, localFrameId := 1054,
        firstFramesCounter := 100, firstFrameFlag := true,
        frameTimeStamp := alignedState.frameTimeStamp.dropLast }
      (frameTick 100 1006)).next = .ok { alignedState with firstFrameId := 1004 } :=
  ⟨by decide!,
    (pre_alignment_silence 1 (warmup 1004 100) (frameTick 100 1006) _
      (by decide!) (by decide!)).1,
    by decide!⟩

/-- C7. A lookup miss is harmless: in an aligned state, for a batch whose frame
number (that of its first pose) has no entry in the buffer, the correlation
step publishes nothing, does not fault, and returns the state unchanged (buffer,
sequence counters, alignment variables and all). -/
theorem lookup_miss_is_noop (s : State) (p0 : Pose) (rest : List Pose)
    (haligned : s.firstFrameFlag = false)
    (hmiss : mapAt s.frameTimeStamp p0.frameNum = none) :
    correlate s (p0 :: rest) = ⟨[], .ok s⟩ := by
  simp [correlate, haligned, mapCount, hmiss]

/-- C7 at a concrete state: frame 1005 has no entry after the sample warm-up. -/
theorem lookup_miss_is_noop_witness :
    alignedState.firstFrameFlag = false ∧
    mapAt alignedState.frameTimeStamp 1005 = none ∧
    correlate alignedState [⟨1, 1005, 0⟩, ⟨1, 1005, 1⟩] = ⟨[], .ok alignedState⟩ :=
  ⟨by decide, by decide,
    lookup_miss_is_noop alignedState ⟨1, 1005, 0⟩ [⟨1, 1005, 1⟩] (by decide) (by decide)⟩

/-- C8. Eviction: when the correlation step of an aligned state succeeds on a
batch with frame number `F` found in the buffer, the buffer afterwards is the
buffer before restricted to the keys `≥ F - 300`: no entry with a key below
`F - 300` is left and every other entry is kept with its time. -/
theorem eviction_after_correlation (s s' : State) (p0 : Pose) (rest : List Pose)
    (hordered : Ordered s.frameTimeStamp)
    (haligned : s.firstFrameFlag = false)
    (hpos : 0 < p0.frameNum)
    (hfound : mapAt s.frameTimeStamp p0.frameNum ≠ none)
    (hok : (correlate s (p0 :: rest)).next = .ok s') :
    s'.frameTimeStamp = s.frameTimeStamp.filter (fun e => decide (p0.frameNum - 300 ≤ e.1)) ∧
    (∀ e ∈ s'.frameTimeStamp, ¬ e.1 < p0.frameNum - 300) ∧
    (∀ k, mapAt s'.frameTimeStamp k =
      if p0.frameNum - 300 ≤ k then mapAt s.frameTimeStamp k else none) := by
  have hcount : 0 < mapCount s.frameTimeStamp p0.frameNum := by
    unfold mapCount
    cases h : mapAt s.frameTimeStamp p0.frameNum with
    | none => exact absurd h hfound
    | some t => simp
  have hbuf : s'.frameTimeStamp = evict s.frameTimeStamp (p0.frameNum - 300) := by
    unfold correlate at hok
    simp only [haligned, hpos, hcount, and_self, if_true] at hok
    split at hok
    · simp at hok
    · simp at hok; subst hok; simp [mapBufferSize]
  refine ⟨?_, ?_, ?_⟩
  · rw [hbuf, evict_eq_filter _ _ hordered]
  · intro e he
    rw [hbuf, evict_eq_filter _ _ hordered] at he
    have := (List.mem_filter.1 he).2
    simp only [decide_eq_true_eq] at this
    omega
  · intro k
    rw [hbuf, mapAt_evict _ _ _ hordered]


/-- C8 at a concrete state: after the sample warm-up the buffer holds key 1 and
keys 1006..1055; correlating frame 1006 removes key 1 (below 706) only. -/
theorem eviction_after_correlation_witness :
    Ordered alignedState.frameTimeStamp ∧
    (correlate alignedState [⟨1, 1006, 0⟩]).next =
      .ok { alignedState with seqs := [1], frameTimeStamp := alignedState.frameTimeStamp.tail } ∧
    alignedState.frameTimeStamp.tail =
      alignedState.frameTimeStamp.filter (fun e => decide ((1006 : Int) - 300 ≤ e.1)) :=
  ⟨by decide!, by decide!,
    (eviction_after_correlation alignedState
      { alignedState with seqs := [1], frameTimeStamp := alignedState.frameTimeStamp.tail }
      ⟨1, 1006, 0⟩ [] (by decide!) (by decide) (by decide) (by decide) (by decide!)).1⟩

/-! ## The pulse step and the serial write -/

/-- On any pulse tick whose write throws, the time has been stored under
`localCntFrame+firstFrameId` when the exception leaves the loop, and the
iteration ends the run; when no pulse is due nothing is stored and the pulse
step goes through. -/
theorem pulseStep_on_throw (s : State) (i : Tick) :
    (pulseDue s i = true → i.writeOk = false →
      mapAt (storeStamp s i).frameTimeStamp (wrap32 (s.localCntFrame + s.firstFrameId)) =
        some i.now ∧
      pulseStep s i = .error .serialWrite ∧
      tick s i = ⟨[], .error .serialWrite⟩) ∧
    (pulseDue s i = false → pulseStep s i = .ok s) := by
  refine ⟨fun hd hw => ⟨?_, ?_, ?_⟩, fun hd => ?_⟩
  · simp [storeStamp, mapAt_mapSet_self]
  · simp [pulseStep, hd, hw]
  · simp [tick, pulseStep, hd, hw]
  · simp [pulseStep, hd]

/-- C10 on the code.  First iteration, channel open, the write of the trigger byte
fails (throws): line 108 has already stored time 7 under key 1 in the empty
buffer, the exception is not caught, and the run ends there, so no later
iteration takes place.  With the channel reported closed instead, the same
iteration stores nothing and the loop goes on, which is what the claim asks of a
failed write. -/
theorem write_failure_stores_then_aborts :
    pulseDue (init 1) ⟨true, 7, false, []⟩ = true ∧
    (init 1).frameTimeStamp = [] ∧
    (storeStamp (init 1) ⟨true, 7, false, []⟩).frameTimeStamp = [(1, 7)] ∧
    pulseStep (init 1) ⟨true, 7, false, []⟩ = .error .serialWrite ∧
    tick (init 1) ⟨true, 7, false, []⟩ = ⟨[], .error .serialWrite⟩ ∧
    (run (init 1) [⟨true, 7, false, []⟩, idleTick]).next = .error .serialWrite ∧
    (run (init 1) [⟨true, 7, false, []⟩, idleTick]).pulses = [] ∧
    tick (init 1) ⟨false, 7, false, []⟩ = ⟨[], .ok (bumpCount (init 1))⟩ := by
  refine ⟨by decide, by decide, by decide, by decide, by decide, by decide, by decide,
    by decide⟩

/-! ## The publishing loop -/

theorem publishLoop_ok (m : FrameMap) (poses : List Pose) (seqs : List Nat)
    (hfound : ∀ p ∈ poses, mapAt m p.frameNum ≠ none)
    (hid : ∀ p ∈ poses, 1 ≤ p.id ∧ p.id ≤ seqs.length) :
    (∃ seqs', (publishLoop m poses seqs).2 = .ok seqs' ∧ seqs'.length = seqs.length) ∧
    (publishLoop m poses seqs).1.map (fun r => (r.pose, some r.stamp)) =
      poses.map (fun p => (p, mapAt m p.frameNum)) ∧
    (publishLoop m poses seqs).1.map (fun r => (r.body : Int)) =
      poses.map (fun p => p.id - 1) := by
  induction poses generalizing seqs with
  | nil => simp [publishLoop]
  | cons p ps ih =>
    have hp := hfound p (List.mem_cons_self _ _)
    have hi := hid p (List.mem_cons_self _ _)
    cases ht : mapAt m p.frameNum with
    | none => exact absurd ht hp
    | some t =>
      have hr : 0 ≤ p.id - 1 ∧ (p.id - 1).toNat < seqs.length := by omega
      have ih' := ih (seqs.set (p.id - 1).toNat (incU32 (seqs.getD (p.id - 1).toNat 0)))
        (fun q hq => hfound q (List.mem_cons_of_mem _ hq))
        (fun q hq => by
          have := hid q (List.mem_cons_of_mem _ hq)
          simpa using this)
      obtain ⟨⟨seqs', h1, h2⟩, h3, h4⟩ := ih'
      have hnat : ((p.id - 1).toNat : Int) = p.id - 1 := Int.toNat_of_nonneg hr.1
      refine ⟨⟨seqs', ?_, ?_⟩, ?_, ?_⟩
      · simp only [publishLoop, ht, hr, and_self, if_true]; exact h1
      · simpa using h2
      · simp only [publishLoop, ht, hr, and_self, if_true, List.map_cons, h3]
      · simp only [publishLoop, ht, hr, and_self, if_true, List.map_cons, h4, hnat]

/-! ## Claim C6 -/

set_option maxRecDepth 100000 in
/-- C6 on the code.  After the sample warm-up (aligned, buffer holds frame 1006
with time 2, no entry for frame 1005) the batch of two poses whose first pose
is from frame 1006 and whose second is from frame 1005 passes the guard of line
117, publishes one record for two poses and then ends the run on the uncaught
`std::out_of_range` of `frameTimeStamp.at(1005)`. -/
theorem mixed_batch_faults :
    (run (init 1) (warmup 1004 101)).next = .ok alignedState ∧
    alignedState.firstFrameFlag = false ∧
    mapAt alignedState.frameTimeStamp 1006 = some 2 ∧
    mapAt alignedState.frameTimeStamp 1005 = none ∧
    tick alignedState ⟨true, 101, true, [⟨1, 1006, 0⟩, ⟨1, 1005, 1⟩]⟩ =
      ⟨[⟨0, 2, 0, ⟨1, 1006, 0⟩⟩], .error .timestampMissing⟩ ∧
    (run (init 1) (warmup 1004 101 ++
      [⟨true, 101, true, [⟨1, 1006, 0⟩, ⟨1, 1005, 1⟩]⟩])).next = .error .timestampMissing := by
  refine ⟨by decide!, by decide!, by decide!, by decide!, by decide!, by decide!⟩

set_option maxRecDepth 100000 in
/-- The same two-pose batch with its poses in the other order is skipped by the
guard of line 117 (its first pose's frame has no entry): nothing is published
and the run goes on.  The guard handles a miss of the first pose only. -/
theorem mixed_batch_skipped_when_first_misses :
    correlate alignedState [⟨1, 1005, 1⟩, ⟨1, 1006, 0⟩] = ⟨[], .ok alignedState⟩ := by
  decide!

set_option maxRecDepth 100000 in
/-- The guard `poses[0].frameNum>0`: after a warm-up whose frames are numbered
`-3` the buffer holds an entry under key 0, and a batch from frame 0 publishes
nothing. -/
theorem nonpositive_frame_is_skipped :
    (stateAfter 1 (warmup (-3) 101)).firstFrameFlag = false ∧
    mapAt (stateAfter 1 (warmup (-3) 101)).frameTimeStamp 0 = some 4 ∧
    (tick (stateAfter 1 (warmup (-3) 101)) (frameTick 101 0)).published = [] := by
  refine ⟨by decide!, by decide!, by decide!⟩

/-- A pose whose id is outside `1 .. nbodies` indexes `seqs` and the publisher
vectors out of bounds: with one tracked body, a pose of body 2 faults. -/
theorem foreign_body_id_faults :
    mapAt alignedState.frameTimeStamp 1006 = some 2 ∧
    correlate alignedState [⟨2, 1006, 0⟩] = ⟨[], .error .bodyIndex⟩ := by
  refine ⟨by decide!, by decide!⟩

/-- On a batch all of whose poses carry the batch's frame number (one call, one
capture frame), with that number positive and found in the buffer and every id
in `1 .. nbodies`, the correlation step does not fault and publishes exactly one
record per pose, in batch order, on the publisher `id - 1`, each with the time
found for the batch. -/
theorem single_frame_batch_published (s : State) (p0 : Pose) (rest : List Pose) (t : Time)
    (haligned : s.firstFrameFlag = false)
    (hpos : 0 < p0.frameNum)
    (hfound : mapAt s.frameTimeStamp p0.frameNum = some t)
    (hsame : ∀ p ∈ rest, p.frameNum = p0.frameNum)
    (hid : ∀ p ∈ p0 :: rest, 1 ≤ p.id ∧ p.id ≤ s.seqs.length) :
    (∃ s', (correlate s (p0 :: rest)).next = .ok s') ∧
    (correlate s (p0 :: rest)).published.map (fun r => (r.pose, r.stamp)) =
      (p0 :: rest).map (fun p => (p, t)) ∧
    (correlate s (p0 :: rest)).published.map (fun r => (r.body : Int)) =
      (p0 :: rest).map (fun p => p.id - 1) := by
  have hall : ∀ p ∈ p0 :: rest, p.frameNum = p0.frameNum := by
    intro p hp
    rcases List.mem_cons.1 hp with hp | hp
    · rw [hp]
    · exact hsame p hp
  have hfound' : ∀ p ∈ p0 :: rest, mapAt s.frameTimeStamp p.frameNum ≠ none := by
    intro p hp
    rw [hall p hp, hfound]
    simp
  have hcount : 0 < mapCount s.frameTimeStamp p0.frameNum := by
    simp [mapCount, hfound]
  obtain ⟨⟨seqs', h1, _⟩, h3, h4⟩ :=
    publishLoop_ok s.frameTimeStamp (p0 :: rest) s.seqs hfound' hid
  have hpub : (correlate s (p0 :: rest)).published =
      (publishLoop s.frameTimeStamp (p0 :: rest) s.seqs).1 := by
    unfold correlate
    simp only [haligned, hpos, hcount, and_self, if_true]
    split <;> rename_i heq <;> rw [heq]
  refine ⟨?_, ?_, ?_⟩
  · unfold correlate
    simp only [haligned, hpos, hcount, and_self, if_true]
    split
    · rename_i heq
      rw [heq] at h1; simp at h1
    · exact ⟨_, rfl⟩
  · rw [hpub]
    have h5 := congrArg (List.map (fun (x : Pose × Option Time) => (x.1, x.2.getD 0))) h3
    simp only [List.map_map] at h5
    have e1 : ((fun (x : Pose × Option Time) => (x.1, x.2.getD 0)) ∘
        fun (r : Record) => (r.pose, some r.stamp)) = fun r => (r.pose, r.stamp) := by
      funext r; simp
    rw [e1] at h5
    rw [h5]
    apply List.map_congr_left
    intro p hp
    simp [hall p hp, hfound]
  · rw [hpub, h4]

/-! ## The start-up aligner -/

theorem wrap32_one : wrap32 1 = 1 := by decide

theorem align_invalid (s : State) (i : Tick) (h : validFrame i = none) :
    align s i.poses = s := by
  unfold validFrame at h
  unfold align
  split
  · rfl
  · rename_i p0 rest heq
    rw [heq] at h
    simp only at h
    split at h
    · rename_i hs; simp [hs]
    · simp at h

theorem align_valid (s : State) (i : Tick) (f : Int) (h : validFrame i = some f)
    (hw : s.firstFrameFlag = true) :
    (align s i.poses).firstMinCnt ≠ 0 ∧
    (align s i.poses).firstFrameId =
      (if s.firstMinCnt = 0 then f else if f < s.firstFrameId then f else s.firstFrameId) := by
  unfold validFrame at h
  unfold align
  split
  · rename_i heq; rw [heq] at h; simp at h
  · rename_i p0 rest heq
    rw [heq] at h
    simp only at h
    split at h
    · simp at h
    · rename_i hs
      simp only [Option.some.injEq] at h
      subst h
      simp only [hw, ne_eq, hs, not_false_eq_true, and_self, if_true]
      by_cases h0 : s.firstMinCnt = 0
      · simp [h0, wrap32_one]
      · simp [h0]

theorem validFrames_snoc (ins : List Tick) (i : Tick) :
    validFrames (ins ++ [i]) = validFrames ins ++ (validFrame i).toList := by
  unfold validFrames
  rw [List.filterMap_append]
  cases h : validFrame i <;> simp [List.filterMap_cons, h]

theorem tick_tracksMin (s s' : State) (ins : List Tick) (i : Tick)
    (hw : s.firstFrameFlag = true) (hinv : TracksMin s ins)
    (ht : (tick s i).next = .ok s') :
    TracksMin s' (ins ++ [i]) ∧ (s'.firstFrameFlag = false → s'.firstMinCnt ≠ 0) := by
  have ht := tick_warmup_ok s s' i hw ht
  subst ht
  have hp := pulseState_frame s i
  have hw1 : (pulseState s i).firstFrameFlag = true := by rw [hp.1, hw]
  unfold TracksMin
  rw [validFrames_snoc]
  cases hv : validFrame i with
  | none =>
    rw [align_invalid _ i hv]
    simp only [bumpCount, Option.toList, List.append_nil, hw1, Bool.true_eq_false, false_implies, and_true]
    unfold TracksMin at hinv
    simp only [hp.2.1, hp.2.2.2.2.2]
    exact hinv
  | some f =>
    have ha := align_valid (pulseState s i) i f hv hw1
    rw [hp.2.1, hp.2.2.2.2.2] at ha
    refine ⟨?_, fun _ => ?_⟩
    · right
      simp only [bumpCount, Option.toList]
      refine ⟨ha.1, ?_⟩
      rw [ha.2]
      rcases hinv with ⟨h0, hnil⟩ | ⟨h0, hmem, hmin⟩
      · simp [h0, hnil]
      · simp only [h0, if_false]
        by_cases hlt : f < s.firstFrameId
        · simp only [hlt, if_true]
          refine ⟨by simp, ?_⟩
          intro g hg
          rcases List.mem_append.1 hg with hg | hg
          · have := hmin g hg; omega
          · simp at hg; omega
        · simp only [hlt, if_false]
          refine ⟨List.mem_append_left _ hmem, ?_⟩
          intro g hg
          rcases List.mem_append.1 hg with hg | hg
          · exact hmin g hg
          · simp at hg; omega
    · simpa [bumpCount] using ha.1

theorem init_tracksMin (nbodies : Int) : TracksMin (init nbodies) [] := by
  left; simp [init, validFrames]

theorem run_tracksMin (nbodies : Int) (ins : List Tick) (s : State)
    (hrun : (run (init nbodies) ins).next = .ok s) (hw : s.firstFrameFlag = true) :
    TracksMin s ins := by
  induction ins using List.reverseRecOn generalizing s with
  | nil =>
    rw [run_nil] at hrun
    simp only [Except.ok.injEq] at hrun
    subst hrun
    exact init_tracksMin nbodies
  | append_singleton l a ih =>
    obtain ⟨s1, h1, ht⟩ := run_snoc_ok _ _ _ _ hrun
    have hw1 : s1.firstFrameFlag = true := by
      cases hf : s1.firstFrameFlag with
      | true => rfl
      | false =>
        have := (tick_aligned_frame s1 s a hf ht).1
        rw [this] at hw; exact absurd hw (by simp)
    exact (tick_tracksMin s1 s l a hw1 (ih s1 h1 hw1) ht).1

/-- C3. In a run from the initial state, on the iteration that clears
`firstFrameFlag` the value left in `firstFrameId` is the minimum of the frame
numbers of all valid batches (non-empty, first pose's frame number not `-1`)
seen up to and including that iteration: it is one of them and no other is
smaller.  An iteration whose batch is empty or carries the sentinel `-1` leaves
`firstFrameId`, the warm-up counter, `firstMinCnt` and the flag as they were. -/
theorem frozen_offset_is_minimum (nbodies : Int) (ins : List Tick) (i : Tick) (s s' : State)
    (hrun : (run (init nbodies) ins).next = .ok s)
    (hwarm : s.firstFrameFlag = true)
    (hstep : (tick s i).next = .ok s') :
    (s'.firstFrameFlag = false →
      s'.firstFrameId ∈ validFrames (ins ++ [i]) ∧
      ∀ f ∈ validFrames (ins ++ [i]), s'.firstFrameId ≤ f) ∧
    (validFrame i = none →
      s'.firstFrameId = s.firstFrameId ∧
      s'.firstFramesCounter = s.firstFramesCounter ∧
      s'.firstMinCnt = s.firstMinCnt ∧
      s'.firstFrameFlag = s.firstFrameFlag) := by
  have hinv := run_tracksMin nbodies ins s hrun hwarm
  have hstep' := tick_tracksMin s s' ins i hwarm hinv hstep
  refine ⟨fun hfrozen => ?_, fun hinvalid => ?_⟩
  · rcases hstep'.1 with ⟨h0, _⟩ | ⟨_, hmem, hmin⟩
    · exact absurd h0 (hstep'.2 hfrozen)
    · exact ⟨hmem, hmin⟩
  · have hstep := tick_warmup_ok s s' i hwarm hstep
    subst hstep
    rw [align_invalid _ i hinvalid]
    have hp := pulseState_frame s i
    simp [bumpCount, hp.1, hp.2.1, hp.2.2.2.2.1, hp.2.2.2.2.2]


set_option maxRecDepth 100000 in
/-- C3 at a concrete run: frames 1005, -1, 1007, 1002, -1, 1004, then 1010 up to
the 100th valid frame; the 101st valid frame (1003) freezes the offset at 1002,
the minimum of the valid frame numbers. -/
theorem frozen_offset_is_minimum_witness :
    (stateAfter 1 (framesToTicks startFrames)).firstFrameFlag = true ∧
    (stateAfter 1 (framesToTicks startFrames ++ [frameTick 102 1003])).firstFrameFlag = false ∧
    (stateAfter 1 (framesToTicks startFrames ++ [frameTick 102 1003])).firstFrameId = 1002 ∧
    ((stateAfter 1 (framesToTicks startFrames ++ [frameTick 102 1003])).firstFrameId ∈
        validFrames (framesToTicks startFrames ++ [frameTick 102 1003]) ∧
      ∀ f ∈ validFrames (framesToTicks startFrames ++ [frameTick 102 1003]),
        (stateAfter 1 (framesToTicks startFrames ++ [frameTick 102 1003])).firstFrameId ≤ f) :=
  ⟨by decide!, by decide!, by decide!,
    (frozen_offset_is_minimum 1 (framesToTicks startFrames) (frameTick 102 1003)
      (stateAfter 1 (framesToTicks startFrames))
      (stateAfter 1 (framesToTicks startFrames ++ [frameTick 102 1003]))
      (by decide!) (by decide!) (by decide!)).1 (by decide!)⟩

/-! ## Size of the buffer -/

theorem mapSet_last (m : FrameMap) (k : Int) (t : Time) (h : ∀ e ∈ m, e.1 < k) :
    mapSet m k t = m ++ [(k, t)] := by
  induction m with
  | nil => rfl
  | cons e0 rest ih =>
    obtain ⟨k0, t0⟩ := e0
    have h0 : k0 < k := h (k0, t0) (List.mem_cons_self _ _)
    have h1 : ¬ k < k0 := by omega
    have h2 : ¬ k = k0 := by omega
    simp only [mapSet, h1, h2, if_false, List.cons_append]
    rw [ih (fun e he => h e (List.mem_cons_of_mem _ he))]

theorem wrap32_small (x : Int) (h1 : -2147483648 ≤ x) (h2 : x < 2147483648) : wrap32 x = x := by
  unfold wrap32; omega

theorem idle_tick (n : Nat) (hn : n < 2000000000) :
    tick (idleState n) idleTick = ⟨[], .ok (idleState (n + 1))⟩ := by
  rw [tick_warmup _ _ rfl (fun _ => rfl)]
  congr 2
  rcases Nat.even_or_odd' n with ⟨k, hk | hk⟩
  · have hdue : pulseDue (idleState n) idleTick = true := by
      simp only [pulseDue, idleTick, idleState, Bool.true_and, beq_iff_eq]
      apply Int.tmod_eq_zero_of_dvd
      exact ⟨k, by omega⟩
    have e1 : (n + 1) / 2 = k := by omega
    have e2 : (n + 1 + 1) / 2 = k + 1 := by omega
    have hposes : idleTick.poses = [] := rfl
    simp only [pulseState, advance, storeStamp, hdue, if_true, hposes, align, bumpCount]
    simp only [idleState, idleTick, e1, e2, Int.ofNat_eq_coe, add_zero]
    rw [wrap32_small (k + 1) (by omega) (by omega), wrap32_small (k + 1 + 1) (by omega) (by omega),
      wrap32_small (n + 1) (by omega) (by omega)]
    rw [mapSet_last]
    · simp [List.range_succ]
    · intro e he
      simp only [List.mem_map, List.mem_range] at he
      obtain ⟨j, hj, rfl⟩ := he
      simp only; omega
  · have hdue : pulseDue (idleState n) idleTick = false := by
      simp only [pulseDue, idleTick, idleState, Bool.true_and, beq_eq_false_iff_ne, ne_eq]
      intro h
      have := Int.emod_eq_zero_of_dvd (Int.dvd_of_tmod_eq_zero h)
      omega
    have e1 : (n + 1) / 2 = k + 1 := by omega
    have e2 : (n + 1 + 1) / 2 = k + 1 := by omega
    have hposes : idleTick.poses = [] := rfl
    simp only [pulseState, advance, storeStamp, hdue, Bool.false_eq_true, if_false, hposes, align, bumpCount]
    simp only [idleState, e1, e2, Int.ofNat_eq_coe]
    rw [wrap32_small (n + 1) (by omega) (by omega)]
    simp

theorem idle_run (n : Nat) (hn : n ≤ 2000000000) :
    (run (init 1) (List.replicate n idleTick)).next = .ok (idleState n) := by
  induction n with
  | zero => rfl
  | succ n ih =>
    rw [List.replicate_succ', run_snoc, step_of_ok _ _ _ (ih (by omega)), idle_tick n (by omega)]

/-- C2 on the code.  602 iterations with the channel open and empty batches leave
301 entries in the buffer, one per pulse tick, more than `mapBufferSize`: the
loop that removes the oldest timestamps runs only inside a successful
correlation, so here nothing is ever removed. -/
theorem buffer_exceeds_window :
    (run (init 1) (List.replicate 602 idleTick)).next = .ok (idleState 602) ∧
    300 < (idleState 602).frameTimeStamp.length :=
  ⟨idle_run 602 (by decide), by simp [idleState]⟩

/-! ## The pulse log -/

theorem lastPulseAt_snoc (log : List Pulse) (p : Pulse) (k : Int) :
    lastPulseAt (log ++ [p]) k = if p.key = k then some p else lastPulseAt log k := by
  unfold lastPulseAt
  rw [List.reverse_append, List.reverse_singleton, List.singleton_append, List.find?_cons]
  by_cases h : p.key = k
  · simp [h]
  · have hb : (p.key == k) = false := by simpa using h
    simp [h, hb]

theorem lastPulseAt_key (log : List Pulse) (p : Pulse) (k : Int)
    (h : lastPulseAt log k = some p) : p.key = k ∧ p ∈ log := by
  unfold lastPulseAt at h
  have h1 := List.find?_some h
  have h2 := List.mem_of_find?_eq_some h
  simp only [beq_iff_eq] at h1
  exact ⟨h1, List.mem_reverse.1 h2⟩

theorem pulseState_logged (s : State) (i : Tick) (log : List Pulse)
    (hw : WriteReturns s i) (h : BufferLogged s.frameTimeStamp log) :
    BufferLogged (pulseState s i).frameTimeStamp (log ++ (pulseOf s i).toList) := by
  unfold pulseState pulseOf
  by_cases hd : pulseDue s i = true
  · simp only [hd, hw hd, Bool.and_self, if_true, Option.toList, advance, storeStamp]
    intro k t hk
    rw [lastPulseAt_snoc]
    by_cases hkey : wrap32 (s.localCntFrame + s.firstFrameId) = k
    · subst hkey
      rw [mapAt_mapSet_self] at hk
      simp only [Option.some.injEq] at hk
      simp [hk]
    · rw [mapAt_mapSet_ne _ _ _ _ (fun h => hkey h.symm)] at hk
      simp only [hkey, if_false]
      exact h k t hk
  · simp only [hd, Bool.false_eq_true, Bool.false_and, if_false, Option.toList, List.append_nil]
    exact h

theorem pulseState_ordered (s : State) (i : Tick) (h : Ordered s.frameTimeStamp) :
    Ordered (pulseState s i).frameTimeStamp := by
  unfold pulseState
  split
  · exact mapSet_ordered _ _ _ h
  · exact h

theorem pulseOf_props (s : State) (i : Tick) (p : Pulse) (h : p ∈ (pulseOf s i).toList) :
    p.key = wrap32 (p.localIndex + p.offset) ∧ p.offset = s.firstFrameId ∧
    (p.aligned = true → s.firstFrameFlag = false) := by
  unfold pulseOf at h
  split at h
  · simp only [Option.toList, List.mem_singleton] at h
    subst h
    simp
  · simp at h

theorem step_logInv (tr : Trace) (i : Tick) (h : LogInv tr) : LogInv (tr.step i) := by
  cases hn : tr.next with
  | error f => rw [step_of_error _ f i hn]; exact h
  | ok s =>
    rw [step_of_ok _ s i hn]
    obtain ⟨hkeys, hst⟩ := h
    obtain ⟨hord, hlog, hal⟩ := hst s hn
    refine ⟨?_, ?_⟩
    · intro p hp
      rcases List.mem_append.1 hp with hp | hp
      · exact hkeys p hp
      · exact (pulseOf_props s i p hp).1
    · intro s' hs'
      simp only at hs'
      obtain ⟨hw, s1, h1, h2⟩ := tick_ok s s' i hs'
      have hc := correlate_frame _ _ _ h1
      have ha := align_frame s1 i.poses
      have hbuf : s'.frameTimeStamp = s1.frameTimeStamp := by
        subst h2; simp [bumpCount, ha.2.1]
      have hord1 := pulseState_ordered s i hord
      have hlog1 := pulseState_logged s i tr.pulses hw hlog
      refine ⟨?_, ?_, ?_⟩
      · rw [hbuf]
        rcases hc.2.2.2.2.2.2 with hb | ⟨b, hb⟩
        · rw [hb]; exact hord1
        · rw [hb]; exact evict_ordered _ _ hord1
      · rw [hbuf]
        simp only
        rcases hc.2.2.2.2.2.2 with hb | ⟨b, hb⟩
        · rw [hb]; exact hlog1
        · rw [hb]
          intro k t hk
          rw [mapAt_evict _ _ _ hord1] at hk
          split at hk
          · exact hlog1 k t hk
          · simp at hk
      · intro p hp hpa
        simp only at hp
        have hflag : s.firstFrameFlag = false ∧ p.offset = s.firstFrameId := by
          rcases List.mem_append.1 hp with hp | hp
          · exact hal p hp hpa
          · have := pulseOf_props s i p hp
            exact ⟨this.2.2 hpa, this.2.1⟩
        have := tick_aligned_frame s s' i hflag.1 hs'
        exact ⟨this.1, by rw [this.2]; exact hflag.2⟩

theorem run_logInv (s0 : State) (h0 : Ordered s0.frameTimeStamp)
    (hempty : s0.frameTimeStamp = []) (ins : List Tick) : LogInv (run s0 ins) := by
  induction ins using List.reverseRecOn with
  | nil =>
    refine ⟨by simp [run_nil], ?_⟩
    intro s hs
    rw [run_nil] at hs
    simp only [Except.ok.injEq] at hs
    subst hs
    refine ⟨h0, ?_, by simp [run_nil]⟩
    intro k t hk
    rw [hempty] at hk
    simp [mapAt] at hk
  | append_singleton l a ih =>
    rw [run_snoc]
    exact step_logInv _ a ih

theorem publishLoop_stamp (m : FrameMap) (poses : List Pose) (seqs : List Nat) (r : Record)
    (hr : r ∈ (publishLoop m poses seqs).1) :
    mapAt m r.pose.frameNum = some r.stamp ∧ r.pose ∈ poses := by
  induction poses generalizing seqs with
  | nil => simp [publishLoop] at hr
  | cons p ps ih =>
    unfold publishLoop at hr
    simp only at hr
    split at hr
    · simp at hr
    · rename_i t ht
      split at hr
      · simp only [List.mem_cons] at hr
        rcases hr with hr | hr
        · subst hr
          simp [ht]
        · have := ih _ hr
          exact ⟨this.1, List.mem_cons_of_mem _ this.2⟩
      · simp at hr

theorem correlate_stamp (s : State) (poses : List Pose) (r : Record)
    (hr : r ∈ (correlate s poses).published) :
    s.firstFrameFlag = false ∧ mapAt s.frameTimeStamp r.pose.frameNum = some r.stamp ∧
      r.pose ∈ poses := by
  unfold correlate at hr
  split at hr
  · rename_i hflag
    split at hr
    · simp at hr
    · split at hr
      · split at hr
        · rename_i recs f heq
          simp only at hr
          have hrecs := congrArg Prod.fst heq
          simp only at hrecs
          rw [← hrecs] at hr
          exact ⟨hflag, publishLoop_stamp _ _ _ _ hr⟩
        · rename_i recs seqs heq
          simp only at hr
          have hrecs := congrArg Prod.fst heq
          simp only at hrecs
          rw [← hrecs] at hr
          exact ⟨hflag, publishLoop_stamp _ _ _ _ hr⟩
      · simp at hr
  · simp at hr

/-- Every state a run from the initial state reaches has its buffer in key order. -/
theorem run_ordered (nbodies : Int) (ins : List Tick) (s : State)
    (hrun : (run (init nbodies) ins).next = .ok s) : Ordered s.frameTimeStamp :=
  ((run_logInv (init nbodies) (by simp [init, Ordered]) rfl ins).2 s hrun).1

/-! ## Claim C1 -/

set_option maxRecDepth 100000 in
/-- C1 as stated fails.  In the run `lateDrop` alignment freezes with offset 1004.
The record published for frame 1110 is stamped 10, the time of the pulse with
local index 6, which was stored under key `6 + 1104` while the offset was still
1104; the pulse with local index `1110 - 1004 = 106` has not been sent at all. -/
theorem stale_key_gives_other_pulse :
    (stateAfter 1 (warmup 1104 100 ++ [frameTick 100 1004])).firstFrameFlag = false ∧
    (stateAfter 1 (warmup 1104 100 ++ [frameTick 100 1004])).firstFrameId = 1004 ∧
    (run (init 1) lateDrop).published = [⟨0, 10, 0, ⟨1, 1110, 0⟩⟩] ∧
    (run (init 1) lateDrop).pulses.filter (fun p => p.localIndex == 1110 - 1004) = [] ∧
    (run (init 1) lateDrop).pulses.filter (fun p => p.sentAt == 10) =
      [⟨6, 1104, 1110, 10, false⟩] := by
  refine ⟨by decide!, by decide!, by decide!, by decide!, by decide!⟩

set_option maxRecDepth 100000 in
/-- The end-to-end scenario of the specification on the code: pulses 1, 2, 3 are
sent at times 0, 2, 4 and alignment freezes at 1004.  Pulse 1 was stored under
key 1 (the offset was still 0), so a batch from frame 1005 publishes nothing; a
batch from frame 1006 is stamped with the time of pulse 2. -/
theorem first_pulse_is_stored_under_one :
    (run (init 1) (warmup 1004 101)).pulses.take 3 =
      [⟨1, 0, 1, 0, false⟩, ⟨2, 1004, 1006, 2, false⟩, ⟨3, 1004, 1007, 4, false⟩] ∧
    (tick alignedState (frameTick 101 1005)).published = [] ∧
    (tick alignedState (frameTick 101 1006)).published = [⟨0, 2, 0, ⟨1, 1006, 0⟩⟩] := by
  refine ⟨by decide!, by decide!, by decide!⟩

/-- C1 amended. In a run from the initial state (empty buffer), every record
published by an iteration is published with alignment frozen, and its stamp is the
time of the most recent pulse stored under the frame number of its pose, where a
pulse is stored under `localIndex + firstFrameId` (as an `int`) with the value
`firstFrameId` had when the pulse was sent.  For a pulse sent after alignment
froze with offset `A` that value is `A`; whenever it is `A` and the sum is in
`int` range, the stamp is the time of the pulse with local index `F - A`. -/
theorem stamp_is_last_pulse_under_key (nbodies : Int) (ins : List Tick) (i : Tick)
    (s : State) (r : Record)
    (hrun : (run (init nbodies) ins).next = .ok s)
    (hr : r ∈ (tick s i).published) :
    s.firstFrameFlag = false ∧
    ∃ p, lastPulseAt (run (init nbodies) (ins ++ [i])).pulses r.pose.frameNum = some p ∧
      r.stamp = p.sentAt ∧
      wrap32 (p.localIndex + p.offset) = r.pose.frameNum ∧
      (p.aligned = true → p.offset = s.firstFrameId) ∧
      (p.offset = s.firstFrameId → -2147483648 ≤ p.localIndex + s.firstFrameId →
        p.localIndex + s.firstFrameId < 2147483648 →
        p.localIndex = r.pose.frameNum - s.firstFrameId) := by
  have hinv := run_logInv (init nbodies) (by simp [init, Ordered]) rfl ins
  obtain ⟨hkeys, hst⟩ := hinv
  obtain ⟨hord, hlog, hal⟩ := hst s hrun
  obtain ⟨hw, hr⟩ := tick_published_mem s i r hr
  obtain ⟨hflag1, hat, _⟩ := correlate_stamp _ _ _ hr
  have hflag : s.firstFrameFlag = false := by rw [← (pulseState_frame s i).1]; exact hflag1
  refine ⟨hflag, ?_⟩
  have hlog1 := pulseState_logged s i _ hw hlog
  obtain ⟨p, hp, hpt⟩ := hlog1 _ _ hat
  have hpulses : (run (init nbodies) (ins ++ [i])).pulses =
      (run (init nbodies) ins).pulses ++ (pulseOf s i).toList := by
    rw [run_snoc, step_of_ok _ s i hrun]
  rw [hpulses]
  obtain ⟨hpk, hpm⟩ := lastPulseAt_key _ _ _ hp
  have hkey : p.key = wrap32 (p.localIndex + p.offset) := by
    rcases List.mem_append.1 hpm with h | h
    · exact hkeys p h
    · exact (pulseOf_props s i p h).1
  have hoff : p.aligned = true → p.offset = s.firstFrameId := by
    intro ha
    rcases List.mem_append.1 hpm with h | h
    · exact (hal p h ha).2
    · exact (pulseOf_props s i p h).2.1
  refine ⟨p, hp, hpt.symm, by rw [← hkey, hpk], hoff, ?_⟩
  intro ho h1 h2
  have hsum : wrap32 (p.localIndex + s.firstFrameId) = r.pose.frameNum := by
    rw [← ho, ← hkey, hpk]
  rw [wrap32_small _ h1 h2] at hsum
  omega

set_option maxRecDepth 100000 in
/-- C1 amended, at a concrete run: alignment froze at 1004; iteration 102 sends
pulse 52 at time 102 under key 1056 and the batch from frame 1056 is stamped
102, the time of the pulse with local index `1056 - 1004`. -/
theorem stamp_is_last_pulse_under_key_witness :
    (run (init 1) (warmup 1004 101 ++ [frameTick 101 1006])).next =
      .ok (stateAfter 1 (warmup 1004 101 ++ [frameTick 101 1006])) ∧
    (⟨0, 102, 1, ⟨1, 1056, 0⟩⟩ : Record) ∈
      (tick (stateAfter 1 (warmup 1004 101 ++ [frameTick 101 1006]))
        (frameTick 102 1056)).published ∧
    lastPulseAt (run (init 1) (warmup 1004 101 ++ [frameTick 101 1006] ++
        [frameTick 102 1056])).pulses 1056 = some ⟨52, 1004, 1056, 102, true⟩ ∧
    ((stateAfter 1 (warmup 1004 101 ++ [frameTick 101 1006])).firstFrameFlag = false ∧
      ∃ p, lastPulseAt (run (init 1) (warmup 1004 101 ++ [frameTick 101 1006] ++
          [frameTick 102 1056])).pulses 1056 = some p ∧
        102 = p.sentAt ∧
        wrap32 (p.localIndex + p.offset) = 1056 ∧
        (p.aligned = true →
          p.offset = (stateAfter 1 (warmup 1004 101 ++ [frameTick 101 1006])).firstFrameId) ∧
        (p.offset = (stateAfter 1 (warmup 1004 101 ++ [frameTick 101 1006])).firstFrameId →
          -2147483648 ≤ p.localIndex +
            (stateAfter 1 (warmup 1004 101 ++ [frameTick 101 1006])).firstFrameId →
          p.localIndex +
            (stateAfter 1 (warmup 1004 101 ++ [frameTick 101 1006])).firstFrameId < 2147483648 →
          p.localIndex =
            1056 - (stateAfter 1 (warmup 1004 101 ++ [frameTick 101 1006])).firstFrameId)) :=
  ⟨by decide!, by decide!, by decide!,
    stamp_is_last_pulse_under_key 1 (warmup 1004 101 ++ [frameTick 101 1006])
      (frameTick 102 1056) (stateAfter 1 (warmup 1004 101 ++ [frameTick 101 1006]))
      ⟨0, 102, 1, ⟨1, 1056, 0⟩⟩ (by decide!) (by decide!)⟩

/-! ## Sequence counters -/

theorem seqsOf_append (b : Nat) (xs ys : List Record) :
    seqsOf b (xs ++ ys) = seqsOf b xs ++ seqsOf b ys := by
  simp [seqsOf, List.filter_append]

theorem seqsOf_single (b : Nat) (r : Record) :
    seqsOf b [r] = if r.body = b then [r.seq] else [] := by
  by_cases h : r.body = b
  · simp [seqsOf, List.filter_cons, h]
  · simp [seqsOf, List.filter_cons, h]

theorem sequenced_snoc (prev : List Record) (r : Record) (hprev : Sequenced prev)
    (hr : r.seq = (seqsOf r.body prev).length % 4294967296) : Sequenced (prev ++ [r]) := by
  intro b
  rw [seqsOf_append, seqsOf_single]
  by_cases h : r.body = b
  · subst h
    simp only [if_true, List.length_append, List.length_singleton, List.range_succ,
      List.map_append, List.map_singleton]
    rw [← hprev r.body, hr]
  · simp only [h, if_false, List.append_nil]
    exact hprev b

theorem tracks_snoc (seqs : List Nat) (prev : List Record) (r : Record)
    (htrack : Tracks seqs prev) (hb : r.body < seqs.length) :
    Tracks (seqs.set r.body (incU32 (seqs.getD r.body 0))) (prev ++ [r]) := by
  intro b hlt
  rw [List.length_set] at hlt
  rw [seqsOf_append, seqsOf_single, List.length_append]
  by_cases h : r.body = b
  · subst h
    have := htrack r.body hb
    simp only [if_true, List.length_singleton]
    rw [List.getD_eq_getElem?_getD, List.getElem?_set_self hb]
    simp only [Option.getD_some, incU32]
    rw [this]
    omega
  · have := htrack b hlt
    simp only [h, if_false, List.length_nil, Nat.add_zero]
    rw [List.getD_eq_getElem?_getD, List.getElem?_set_ne h, ← List.getD_eq_getElem?_getD]
    exact this

theorem publishLoop_sequenced (m : FrameMap) (poses : List Pose) (seqs : List Nat)
    (prev : List Record) (hprev : Sequenced prev) (htrack : Tracks seqs prev) :
    Sequenced (prev ++ (publishLoop m poses seqs).1) ∧
    ∀ seqs', (publishLoop m poses seqs).2 = .ok seqs' →
      Tracks seqs' (prev ++ (publishLoop m poses seqs).1) := by
  induction poses generalizing seqs prev with
  | nil =>
    simp only [publishLoop, List.append_nil, Except.ok.injEq]
    exact ⟨hprev, fun seqs' h => h ▸ htrack⟩
  | cons p ps ih =>
    unfold publishLoop
    simp only
    split
    · simp only [List.append_nil]
      exact ⟨hprev, fun _ h => by simp at h⟩
    · rename_i t ht
      split
      · rename_i hr
        have hb : (p.id - 1).toNat < seqs.length := hr.2
        have hseq := sequenced_snoc prev ⟨(p.id - 1).toNat, t, seqs.getD (p.id - 1).toNat 0, p⟩
          hprev (htrack _ hb)
        have htr := tracks_snoc seqs prev ⟨(p.id - 1).toNat, t, seqs.getD (p.id - 1).toNat 0, p⟩
          htrack hb
        have := ih _ _ hseq htr
        simp only [List.append_assoc, List.singleton_append] at this
        exact this
      · simp only [List.append_nil]
        exact ⟨hprev, fun _ h => by simp at h⟩

theorem correlate_sequenced (s : State) (poses : List Pose) (prev : List Record)
    (hprev : Sequenced prev) (htrack : Tracks s.seqs prev) :
    Sequenced (prev ++ (correlate s poses).published) ∧
    ∀ s', (correlate s poses).next = .ok s' →
      Tracks s'.seqs (prev ++ (correlate s poses).published) := by
  have hid : Sequenced (prev ++ []) ∧ ∀ s', (Except.ok s : Except Fault State) = Except.ok s' →
      Tracks s'.seqs (prev ++ []) := by
    simp only [List.append_nil, Except.ok.injEq]
    exact ⟨hprev, fun s' h => h ▸ htrack⟩
  cases poses with
  | nil =>
    unfold correlate
    split <;> exact hid
  | cons p0 rest =>
    have hl := publishLoop_sequenced s.frameTimeStamp (p0 :: rest) s.seqs prev hprev htrack
    by_cases hflag : s.firstFrameFlag = false
    · by_cases hguard : 0 < p0.frameNum ∧ 0 < mapCount s.frameTimeStamp p0.frameNum
      · simp only [correlate, hflag, hguard, and_self, if_true]
        split
        · rename_i recs f heq
          have h1 := congrArg Prod.fst heq
          simp only at h1
          rw [h1] at hl
          exact ⟨hl.1, fun _ h => by simp at h⟩
        · rename_i recs seqs heq
          have h1 := congrArg Prod.fst heq
          have h2 := congrArg Prod.snd heq
          simp only at h1 h2
          rw [h1] at hl
          refine ⟨hl.1, ?_⟩
          intro s' hs'
          simp only [Except.ok.injEq] at hs'
          subst hs'
          exact hl.2 seqs h2
      · simp only [correlate, hflag, hguard, if_true, if_false]
        exact hid
    · simp only [correlate, hflag, if_false]
      exact hid


theorem tick_seqInv (s : State) (i : Tick) (prev : List Record)
    (hprev : Sequenced prev) (htrack : Tracks s.seqs prev) :
    Sequenced (prev ++ (tick s i).published) ∧
    ∀ s', (tick s i).next = .ok s' → Tracks s'.seqs (prev ++ (tick s i).published) := by
  by_cases hw : WriteReturns s i
  · have hp : (pulseState s i).seqs = s.seqs := (pulseState_frame s i).2.2.1
    have hc := correlate_sequenced (pulseState s i) i.poses prev hprev (by rw [hp]; exact htrack)
    have hpub : (tick s i).published = (correlate (pulseState s i) i.poses).published := by
      rw [tick_of_returns s i hw, afterPulse_published]
    rw [hpub]
    refine ⟨hc.1, ?_⟩
    intro s' hs'
    obtain ⟨_, s1, h1, h2⟩ := tick_ok s s' i hs'
    have := hc.2 s1 h1
    subst h2
    simpa [bumpCount, (align_frame s1 i.poses).1] using this
  · rw [tick_of_throw s i hw]
    simp only [List.append_nil]
    exact ⟨hprev, fun _ h => by simp at h⟩

theorem step_seqInv (tr : Trace) (i : Tick) (h : SeqInv tr) : SeqInv (tr.step i) := by
  cases hn : tr.next with
  | error f => rw [step_of_error _ f i hn]; exact h
  | ok s =>
    rw [step_of_ok _ s i hn]
    exact tick_seqInv s i tr.published h.1 (h.2 s hn)

theorem run_seqInv (nbodies : Int) (ins : List Tick) : SeqInv (run (init nbodies) ins) := by
  induction ins using List.reverseRecOn with
  | nil =>
    refine ⟨fun b => by simp [run_nil, seqsOf], ?_⟩
    intro s hs
    rw [run_nil] at hs
    simp only [Except.ok.injEq] at hs
    subst hs
    intro b hb
    simp only [init, List.length_replicate] at hb
    simp [run_nil, seqsOf, init, List.getD_eq_getElem?_getD, List.getElem?_replicate, hb]
  | append_singleton l a ih =>
    rw [run_snoc]
    exact step_seqInv _ a ih

theorem foldl_step_ok (later : List Tick) (tr : Trace) (s : State) (h : tr.next = .ok s) :
    later.foldl Trace.step tr =
      ⟨tr.pulses ++ (run s later).pulses, tr.published ++ (run s later).published,
        (run s later).next⟩ := by
  induction later using List.reverseRecOn with
  | nil =>
    cases tr
    simp only at h
    simp [run_nil, h]
  | append_singleton l a ih =>
    rw [List.foldl_append, List.foldl_cons, List.foldl_nil, ih, run_snoc]
    cases hn : (run s l).next with
    | error f =>
      rw [step_of_error _ f a rfl, step_of_error _ f a hn, hn]
    | ok s1 =>
      rw [step_of_ok _ s1 a rfl, step_of_ok _ s1 a hn]
      simp

/-- C9 amended. In every run from the initial state and for every body, the `seq`
fields of the records published for that body, in publication order, are
`0, 1, 2, ...` taken modulo `2^32` (the counter is a `uint`): the first is 0 and
each later one is the previous plus 1, wrapping from `2^32 - 1` to 0.  In
particular they are exactly `0, 1, 2, ...` without gap or repeat for up to
`2^32` records of a body. -/
theorem sequence_counts_modulo (nbodies : Int) (ins : List Tick) (b : Nat) :
    seqsOf b (run (init nbodies) ins).published =
      (List.range (seqsOf b (run (init nbodies) ins).published).length).map
        (fun j => j % 4294967296) ∧
    ((seqsOf b (run (init nbodies) ins).published).length ≤ 4294967296 →
      seqsOf b (run (init nbodies) ins).published =
        List.range (seqsOf b (run (init nbodies) ins).published).length) := by
  have h := (run_seqInv nbodies ins).1 b
  refine ⟨h, fun hle => ?_⟩
  rw [h, List.length_map, List.length_range]
  conv_rhs => rw [← List.map_id (List.range _)]
  apply List.map_congr_left
  intro j hj
  have := List.mem_range.1 hj
  simp only [id]
  omega


set_option maxRecDepth 100000 in
/-- C9 amended, at a concrete run: a batch with body 1 twice, a skipped batch
(frame 1005 has no entry) and a further batch give the sequence 0, 1, 2. -/
theorem sequence_counts_modulo_witness :
    seqsOf 0 (run (init 1) (warmup 1004 101 ++
      [⟨true, 101, true, [⟨1, 1006, 0⟩, ⟨1, 1006, 1⟩]⟩, frameTick 102 1005,
        frameTick 103 1007])).published = [0, 1, 2] ∧
    seqsOf 0 (run (init 1) (warmup 1004 101 ++
      [⟨true, 101, true, [⟨1, 1006, 0⟩, ⟨1, 1006, 1⟩]⟩, frameTick 102 1005,
        frameTick 103 1007])).published =
      List.range (seqsOf 0 (run (init 1) (warmup 1004 101 ++
        [⟨true, 101, true, [⟨1, 1006, 0⟩, ⟨1, 1006, 1⟩]⟩, frameTick 102 1005,
          frameTick 103 1007])).published).length :=
  ⟨by decide!,
    (sequence_counts_modulo 1 (warmup 1004 101 ++
      [⟨true, 101, true, [⟨1, 1006, 0⟩, ⟨1, 1006, 1⟩]⟩, frameTick 102 1005,
        frameTick 103 1007]) 0).2 (by decide!)⟩

/-! ### Wrap-around of a sequence counter -/

theorem steady_pulseState (s : State) (i : Tick) (hs : Steady s) : Steady (pulseState s i) := by
  obtain ⟨hflag, hat, hlen, hord⟩ := hs
  have hp := pulseState_frame s i
  refine ⟨by rw [hp.1, hflag], ?_, by rw [hp.2.2.1, hlen], pulseState_ordered s i hord⟩
  unfold pulseState
  split
  · simp only [advance, storeStamp]
    by_cases hk : (1 : Int) = wrap32 (s.localCntFrame + s.firstFrameId)
    · rw [← hk, mapAt_mapSet_self]; simp
    · rw [mapAt_mapSet_ne _ _ _ _ hk]; exact hat
  · exact hat

theorem steady_correlate (s : State) (hs : Steady s) :
    ∃ r s', correlate s [⟨1, 1, 0⟩] = ⟨[r], .ok s'⟩ ∧ r.body = 0 ∧ Steady s' := by
  obtain ⟨hflag, hat, hlen, hord⟩ := hs
  cases ht : mapAt s.frameTimeStamp 1 with
  | none => exact absurd ht hat
  | some t =>
    match hq : s.seqs, hlen with
    | [q], _ =>
      refine ⟨⟨0, t, q, ⟨1, 1, 0⟩⟩,
        { s with seqs := [incU32 q], frameTimeStamp := evict s.frameTimeStamp (1 - mapBufferSize) },
        ?_, rfl, ?_⟩
      · simp [correlate, hflag, mapCount, ht, publishLoop, hq]
      · refine ⟨hflag, ?_, rfl, evict_ordered _ _ hord⟩
        simp only
        rw [mapAt_evict _ _ _ hord]
        simp [mapBufferSize, ht]

theorem steady_tick (s : State) (i : Tick) (hs : Steady s)
    (hi : i.poses = [⟨1, 1, 0⟩] ∧ i.writeOk = true) :
    ∃ r s', tick s i = ⟨[r], .ok s'⟩ ∧ r.body = 0 ∧ Steady s' := by
  obtain ⟨r, s2, hc, hr, hs2⟩ := steady_correlate _ (steady_pulseState s i hs)
  refine ⟨r, bumpCount s2, ?_, hr, ?_⟩
  · rw [tick_of_returns s i (fun _ => hi.2)]
    simp only [afterPulse, hi.1, hc, align_aligned _ _ hs2.1]
  · exact hs2

theorem steady_run (ins : List Tick) (s : State) (hs : Steady s)
    (hins : ∀ i ∈ ins, i.poses = [⟨1, 1, 0⟩] ∧ i.writeOk = true) :
    (run s ins).published.map (fun r => r.body) = List.replicate ins.length 0 := by
  induction ins generalizing s with
  | nil => rfl
  | cons i l ih =>
    obtain ⟨r, s', ht, hr, hs'⟩ := steady_tick s i hs (hins i (List.mem_cons_self _ _))
    rw [run_cons, foldl_step_ok _ _ s' (by rw [ht])]
    simp only [ht, List.map_append, List.map_cons, List.map_nil, hr,
      ih s' hs' (fun j hj => hins j (List.mem_cons_of_mem _ hj)),
      List.singleton_append, List.length_cons, List.replicate_succ]

theorem seqsOf_of_bodies (b : Nat) (recs : List Record) (n : Nat)
    (h : recs.map (fun r => r.body) = List.replicate n b) :
    (seqsOf b recs).length = n := by
  have hall : ∀ r ∈ recs, r.body = b := by
    intro r hr
    have : r.body ∈ recs.map (fun r => r.body) := List.mem_map_of_mem _ hr
    rw [h] at this
    exact (List.mem_replicate.1 this).2
  have hlen : recs.length = n := by
    have := congrArg List.length h
    simpa using this
  unfold seqsOf
  rw [List.length_map, List.filter_eq_self.2 (fun r hr => by simp [hall r hr]), hlen]

theorem steady_run_length (n : Nat) :
    (seqsOf 0 (run (init 1) (warmup 1004 101 ++ steady n)).published).length = n := by
  apply seqsOf_of_bodies
  rw [run_append, foldl_step_ok _ _ alignedState run_warmup, run_warmup_published]
  have hs : Steady alignedState := by
    refine ⟨rfl, by decide, rfl, by decide⟩
  have := steady_run (steady n) alignedState hs (by
    intro i hi
    simp only [steady, List.mem_map] at hi
    obtain ⟨j, _, rfl⟩ := hi
    exact ⟨rfl, rfl⟩)
  simpa [steady] using this

/-- C9 as stated fails.  After the sample warm-up, 4294967297 further iterations
that each publish one record for body 1 give that body the `seq` values 0, 1,
..., 4294967295 and then 0 again: the record after `seq = 4294967295` repeats 0
instead of carrying 4294967296. -/
theorem sequence_wraps_to_zero :
    (seqsOf 0 (run (init 1) (warmup 1004 101 ++ steady 4294967297)).published)[4294967295]? =
        some 4294967295 ∧
    (seqsOf 0 (run (init 1) (warmup 1004 101 ++ steady 4294967297)).published)[4294967296]? =
        some 0 := by
  have h := (run_seqInv 1 (warmup 1004 101 ++ steady 4294967297)).1 0
  rw [steady_run_length 4294967297] at h
  rw [h, List.getElem?_map, List.getElem?_map,
    List.getElem?_range (by decide), List.getElem?_range (by decide)]
  exact ⟨rfl, rfl⟩

end Optitrack
